import Mathlib

/-!
Verification of the queuectl job-queue system.

The development shallowly embeds the storage layer (`storage.py`, class
`JobStorage`), the worker outcome-recording logic (`worker.py`, class
`Worker`) and the `dlq retry` CLI command (`cli.py`) of the queuectl
repository.  SQLite rows become a Lean structure `Job`; the `jobs` table
becomes a list of rows in insertion (rowid) order; every SQLite
transaction becomes one pure function on the whole store (SQLite
serializes transactions, so concurrent callers are modelled as the
interleavings of these atomic steps).  SQLite compares TEXT columns with
the BINARY collation (bytewise memcmp of the UTF-8 encoding, which on
`List Char` is codepoint-lexicographic order); `chars_lt` below is that
comparison, written structurally recursively so that the kernel can
evaluate it.
-/

namespace QueueCtl

/-- Bytewise (codepoint) lexicographic strict order on char lists: the
SQLite BINARY collation used for every TEXT comparison in `storage.py`. -/
def chars_lt : List Char → List Char → Bool
  | [], [] => false
  | [], _ :: _ => true
  | _ :: _, [] => false
  | a :: as, b :: bs =>
    if a.toNat < b.toNat then true
    else if b.toNat < a.toNat then false
    else chars_lt as bs

/-- Strict order on strings, as SQLite compares TEXT values. -/
def str_lt (a b : String) : Bool := chars_lt a.data b.data

/-- Non-strict order on strings (`a <= b` in SQL `WHERE` clauses). -/
def str_le (a b : String) : Bool := !(str_lt b a)

/-- Numeric value of a decimal digit character, `none` otherwise. -/
def digit_val (c : Char) : Option Nat :=
  if 48 ≤ c.toNat && c.toNat ≤ 57 then some (c.toNat - 48) else none

/-- Accumulating decimal parse of a digit run; fails on a non-digit. -/
def parse_nat_aux : List Char → Nat → Option Nat
  | [], acc => some acc
  | c :: cs, acc =>
    match digit_val c with
    | some d => parse_nat_aux cs (acc * 10 + d)
    | none => none

/-- Python `int(...)` on the decimal strings stored in `config`: an
optional leading minus sign followed by at least one digit (the extra
forms `int` accepts, such as surrounding whitespace, do not arise for the
seeded or CLI-validated values). -/
def parse_int (s : String) : Option Int :=
  match s.data with
  | [] => none
  | '-' :: cs =>
    match cs with
    | [] => none
    | _ => (parse_nat_aux cs 0).map (fun n => -(n : Int))
  | cs => (parse_nat_aux cs 0).map (fun n => (n : Int))

/-- One row of the `jobs` table (schema in `storage.py`, `_init_db`). -/
structure Job where
  id : String
  command : String
  state : String
  attempts : Nat
  max_retries : Int
  created_at : String
  updated_at : String
  locked_by : Option String
  locked_at : Option String
  retry_at : Option String
deriving DecidableEq

/-- The whole database: the `jobs` table in rowid (insertion) order and
the `config` key-value table. -/
structure Store where
  jobs : List Job
  config : List (String × String)
deriving DecidableEq

/-- A fresh database right after `_init_db`: no jobs, config seeded with
`max_retries='3'` and `backoff_base='2'`. -/
def init_store : Store :=
  { jobs := [], config := [("max_retries", "3"), ("backoff_base", "2")] }

/-- `JobStorage.get_config`: the config row's value, else the default. -/
def get_config (st : Store) (key : String) (dflt : Option String) : Option String :=
  match st.config.find? (fun kv => kv.1 == key) with
  | some kv => some kv.2
  | none => dflt

/-- `JobStorage.set_config`: `INSERT OR REPLACE` into `config`. -/
def set_config (st : Store) (key value : String) : Store :=
  { st with config := st.config.filter (fun kv => kv.1 != key) ++ [(key, value)] }

/-- `JobStorage.get_job`: `SELECT * FROM jobs WHERE id = ?` (first row). -/
def get_job (st : Store) (job_id : String) : Option Job :=
  st.jobs.find? (fun j => j.id == job_id)

/-- `JobStorage.create_job`.  When `max_retries` is absent it is resolved
from config (`int(self.get_config("max_retries", "3"))`); a duplicate id
violates the PRIMARY KEY and the transaction rolls back (`none`), as does
a config value that `int()` cannot parse. -/
def create_job (st : Store) (job_id command : String) (max_retries : Option Int)
    (now : String) : Option (Job × Store) :=
  match (match max_retries with
         | some m => some m
         | none => parse_int ((get_config st "max_retries" (some "3")).getD "3")) with
  | none => none
  | some mr =>
    if st.jobs.any (fun j => j.id == job_id) then none
    else
      let job : Job :=
        { id := job_id, command := command, state := "pending", attempts := 0,
          max_retries := mr, created_at := now, updated_at := now,
          locked_by := none, locked_at := none, retry_at := none }
      some (job, { st with jobs := st.jobs ++ [job] })

/-- The row update applied by both `lock_job` and the two UPDATEs inside
`get_next_pending_job`: state='processing', lock fields set, retry_at
cleared. -/
def lock_update (j : Job) (worker_id now : String) : Job :=
  { j with
    state := "processing",
    locked_by := some worker_id,
    locked_at := some now,
    updated_at := now,
    retry_at := none }

/-- `JobStorage.lock_job`: one atomic UPDATE guarded by
`state IN ('pending','failed')`; returns `rowcount > 0`. -/
def lock_job (st : Store) (job_id worker_id now : String) : Bool × Store :=
  let hit : Job → Bool := fun j =>
    j.id == job_id && (j.state == "pending" || j.state == "failed")
  ((st.jobs.countP hit) > 0,
   { st with jobs := st.jobs.map (fun j => if hit j then lock_update j worker_id now else j) })

/-- Eligibility of a failed row for retry in `get_next_pending_job`:
`state = 'failed' AND (retry_at IS NULL OR retry_at <= ?)`. -/
def failed_ready (now : String) (j : Job) : Bool :=
  j.state == "failed" &&
    (match j.retry_at with
     | none => true
     | some r => str_le r now)

/-- `ORDER BY key ASC LIMIT 1` over a result list: the first row holding
the minimal key (SQLite leaves tie order unspecified; the model keeps it
stable). -/
def argmin_by (key : Job → String) : List Job → Option Job
  | [] => none
  | j :: rest =>
    match argmin_by key rest with
    | none => some j
    | some m => if str_le (key j) (key m) then some j else some m

/-- `ORDER BY key DESC LIMIT 1`, stable on ties. -/
def argmax_by (key : Job → String) : List Job → Option Job
  | [] => none
  | j :: rest =>
    match argmax_by key rest with
    | none => some j
    | some m => if str_le (key m) (key j) then some j else some m

/-- The re-select after each UPDATE in `get_next_pending_job`:
`SELECT * FROM jobs WHERE locked_by = ? AND state = 'processing'
ORDER BY locked_at DESC LIMIT 1` (SQL NULLs sort last under DESC, matched
by the `""` default). -/
def reselect (st : Store) (worker_id : String) : Option Job :=
  argmax_by (fun j => j.locked_at.getD "")
    (st.jobs.filter (fun j => j.locked_by == some worker_id && j.state == "processing"))

/-- The pending half of `JobStorage.get_next_pending_job`: atomically lock
the oldest-created pending row, then re-select it. -/
def lease_pending (st : Store) (worker_id now : String) : Option Job × Store :=
  match argmin_by (fun j => j.created_at) (st.jobs.filter (fun j => j.state == "pending")) with
  | some sel =>
    let st1 : Store :=
      { st with jobs := st.jobs.map (fun j =>
          if j.id == sel.id && j.state == "pending" then lock_update j worker_id now else j) }
    match reselect st1 worker_id with
    | some row => (some row, st1)
    | none => (none, st1)
  | none => (none, st)

/-- `JobStorage.get_next_pending_job`: first try to atomically lock the
oldest-updated retry-ready failed row; if none, fall through to the
pending branch.  Each UPDATE is `WHERE id IN (subquery LIMIT 1) AND state
= ...` followed by the re-select on `rowcount > 0`. -/
def get_next_pending_job (st : Store) (worker_id now : String) : Option Job × Store :=
  match argmin_by (fun j => j.updated_at) (st.jobs.filter (failed_ready now)) with
  | some sel =>
    let st1 : Store :=
      { st with jobs := st.jobs.map (fun j =>
          if j.id == sel.id && j.state == "failed" then lock_update j worker_id now else j) }
    match reselect st1 worker_id with
    | some row => (some row, st1)
    | none => lease_pending st1 worker_id now
  | none => lease_pending st worker_id now

/-- `JobStorage.update_job_state`: one UPDATE keyed only on `id`, chosen
among four parameter shapes; every shape clears the lock columns. -/
def update_job_state (st : Store) (job_id state_arg : String)
    (attempts : Option Nat) (retry_at : Option String) (now : String) : Store :=
  { st with jobs := st.jobs.map (fun j =>
      if j.id == job_id then
        match attempts, retry_at with
        | some a, some r =>
          { j with
            state := state_arg,
            attempts := a,
            updated_at := now,
            locked_by := none,
            locked_at := none,
            retry_at := some r }
        | some a, none =>
          { j with
            state := state_arg,
            attempts := a,
            updated_at := now,
            locked_by := none,
            locked_at := none,
            retry_at := none }
        | none, some r =>
          { j with
            state := state_arg,
            updated_at := now,
            locked_by := none,
            locked_at := none,
            retry_at := some r }
        | none, none =>
          { j with
            state := state_arg,
            updated_at := now,
            locked_by := none,
            locked_at := none,
            retry_at := none }
      else j) }

/-- `JobStorage.increment_attempts`: one transaction UPDATEs
`attempts = attempts + 1` and stamps updated_at, and that incremented row
is what the transaction commits (the second component).  The read-back
`self.get_job`, however, opens a second SQLite connection *before* the
incrementing transaction commits (`conn.commit()` runs when the `with`
block exits, after the return value is computed), and a separate
connection sees only the last committed state while the writer holds its
RESERVED lock — so the returned count is the stale pre-increment value
(0 for a missing row). -/
def increment_attempts (st : Store) (job_id now : String) : Nat × Store :=
  let st1 : Store :=
    { st with jobs := st.jobs.map (fun j =>
        if j.id == job_id then { j with attempts := j.attempts + 1, updated_at := now } else j) }
  match get_job st job_id with
  | some j => (j.attempts, st1)
  | none => (0, st1)

/-- `Worker._calculate_backoff`: `backoff_base ** attempts`.  The float
base is modelled as a rational: every Python float is a dyadic rational,
and for the seeded base 2 (or any CLI-valid base such as 2.5) with the
small exponents a retry budget allows, float exponentiation is exact and
agrees with exact rational arithmetic. -/
def calculate_backoff (backoff_base : ℚ) (attempts : Nat) : ℚ := backoff_base ^ attempts

/-- The outcome-recording part of `Worker.process_job` (the shell
execution itself is I/O; its success is the `success` argument).  Time is
split into the rendered `now` string persisted in rows and the epoch
second count `now_epoch` used for the retry arithmetic; `render` stands
for `datetime.fromtimestamp(..).isoformat() + "Z"`.  `job` is the
snapshot dict the worker leased, whose `max_retries` field drives the
retry decision; `new_attempts` is whatever `increment_attempts` returns
— the stale pre-increment count, see above. -/
def process_job_record (st : Store) (job : Job) (success : Bool)
    (backoff_base : ℚ) (now : String) (now_epoch : ℚ) (render : ℚ → String) : Store :=
  if success then
    update_job_state st job.id "completed" none none now
  else
    let res := increment_attempts st job.id now
    let new_attempts := res.1
    let st1 := res.2
    if (new_attempts : Int) ≥ job.max_retries then
      update_job_state st1 job.id "dead" none none now
    else
      let delay := calculate_backoff backoff_base new_attempts
      let retry_at := render (now_epoch + delay)
      update_job_state st1 job.id "failed" none (some retry_at) now

/-- Result of the `dlq retry` CLI command. -/
inductive RetryOutcome
  | notFound
  | notDead (current_state : String)
  | ok
deriving DecidableEq

/-- Process exit code of `dlq retry`: the error paths call
`sys.exit(1)`. -/
def RetryOutcome.exit_code : RetryOutcome → Nat
  | .ok => 0
  | _ => 1

/-- The `dlq retry` command (`cli.py`, `retry`): error out when the job is
missing or not dead, otherwise reset it to pending with attempts 0. -/
def dlq_retry (st : Store) (job_id now : String) : RetryOutcome × Store :=
  match get_job st job_id with
  | none => (.notFound, st)
  | some job =>
    if job.state == "dead" then
      (.ok, update_job_state st job_id "pending" (some 0) none now)
    else
      (.notDead job.state, st)

/-! ### Order theory for the BINARY collation -/

theorem char_toNat_inj {a b : Char} (h : a.toNat = b.toNat) : a = b :=
  Char.ext (UInt32.ext h)

theorem chars_lt_irrefl : ∀ l : List Char, chars_lt l l = false
  | [] => rfl
  | a :: t => by simp [chars_lt, chars_lt_irrefl t]

theorem chars_lt_asymm : ∀ l₁ l₂ : List Char,
    chars_lt l₁ l₂ = true → chars_lt l₂ l₁ = false
  | [], [] => by simp [chars_lt]
  | [], _ :: _ => by simp [chars_lt]
  | _ :: _, [] => by simp [chars_lt]
  | a :: t₁, b :: t₂ => by
    intro h
    simp only [chars_lt] at h ⊢
    rcases Nat.lt_trichotomy a.toNat b.toNat with hab | hab | hab
    · simp [show ¬ b.toNat < a.toNat by omega, hab]
    · have h' : chars_lt t₁ t₂ = true := by
        simpa [show ¬ a.toNat < b.toNat by omega, show ¬ b.toNat < a.toNat by omega] using h
      simp [show ¬ a.toNat < b.toNat by omega, show ¬ b.toNat < a.toNat by omega,
        chars_lt_asymm t₁ t₂ h']
    · simp [show ¬ a.toNat < b.toNat by omega, hab] at h

theorem chars_lt_trans : ∀ l₁ l₂ l₃ : List Char,
    chars_lt l₁ l₂ = true → chars_lt l₂ l₃ = true → chars_lt l₁ l₃ = true
  | _, [], [] => by simp [chars_lt]
  | _, _ :: _, [] => by simp [chars_lt]
  | [], _, _ :: _ => by simp [chars_lt]
  | _ :: _, [], _ :: _ => by simp [chars_lt]
  | a :: t₁, b :: t₂, c :: t₃ => by
    intro h₁ h₂
    simp only [chars_lt] at h₁ h₂ ⊢
    rcases Nat.lt_trichotomy a.toNat b.toNat with hab | hab | hab
    · rcases Nat.lt_trichotomy b.toNat c.toNat with hbc | hbc | hbc
      · simp [show a.toNat < c.toNat by omega]
      · simp [show a.toNat < c.toNat by omega]
      · simp [show ¬ b.toNat < c.toNat by omega, hbc] at h₂
    · rcases Nat.lt_trichotomy b.toNat c.toNat with hbc | hbc | hbc
      · simp [show a.toNat < c.toNat by omega]
      · have h₁' : chars_lt t₁ t₂ = true := by
          simpa [show ¬ a.toNat < b.toNat by omega, show ¬ b.toNat < a.toNat by omega] using h₁
        have h₂' : chars_lt t₂ t₃ = true := by
          simpa [show ¬ b.toNat < c.toNat by omega, show ¬ c.toNat < b.toNat by omega] using h₂
        simp [show ¬ a.toNat < c.toNat by omega, show ¬ c.toNat < a.toNat by omega,
          chars_lt_trans t₁ t₂ t₃ h₁' h₂']
      · simp [show ¬ b.toNat < c.toNat by omega, hbc] at h₂
    · simp [show ¬ a.toNat < b.toNat by omega, hab] at h₁

theorem chars_eq_of_not_lt : ∀ l₁ l₂ : List Char,
    chars_lt l₁ l₂ = false → chars_lt l₂ l₁ = false → l₁ = l₂
  | [], [] => by simp
  | [], _ :: _ => by simp [chars_lt]
  | _ :: _, [] => by simp [chars_lt]
  | a :: t₁, b :: t₂ => by
    intro h₁ h₂
    simp only [chars_lt] at h₁ h₂
    rcases Nat.lt_trichotomy a.toNat b.toNat with hab | hab | hab
    · simp [hab] at h₁
    · have h₁' : chars_lt t₁ t₂ = false := by
        simpa [show ¬ a.toNat < b.toNat by omega, show ¬ b.toNat < a.toNat by omega] using h₁
      have h₂' : chars_lt t₂ t₁ = false := by
        simpa [show ¬ a.toNat < b.toNat by omega, show ¬ b.toNat < a.toNat by omega] using h₂
      rw [char_toNat_inj hab, chars_eq_of_not_lt t₁ t₂ h₁' h₂']
    · simp [hab] at h₂

theorem string_data_inj {a b : String} (h : a.data = b.data) : a = b :=
  congrArg String.mk h

theorem str_le_refl (a : String) : str_le a a = true := by
  unfold str_le str_lt
  simp [chars_lt_irrefl]

theorem str_le_of_not_le {a b : String} (h : ¬ str_le a b = true) : str_le b a = true := by
  unfold str_le str_lt at *
  cases hlt : chars_lt b.data a.data with
  | false => rw [hlt] at h; simp at h
  | true => simp [chars_lt_asymm _ _ hlt]

theorem str_le_trans {a b c : String} (h₁ : str_le a b = true) (h₂ : str_le b c = true) :
    str_le a c = true := by
  unfold str_le str_lt at *
  simp only [Bool.not_eq_true'] at h₁ h₂ ⊢
  cases hca : chars_lt c.data a.data with
  | false => rfl
  | true =>
    cases hbc : chars_lt b.data c.data with
    | true => simp [chars_lt_trans _ _ _ hbc hca] at h₁
    | false =>
      have heq : b.data = c.data := chars_eq_of_not_lt _ _ hbc h₂
      rw [heq] at h₁
      simp [hca] at h₁

/-! ### Generic lemmas about the table encoding -/

theorem find_map_update {f : Job → Job} (hf : ∀ j, (f j).id = j.id) (i : String) :
    ∀ l : List Job,
      (l.map f).find? (fun j => j.id == i) = (l.find? (fun j => j.id == i)).map f
  | [] => rfl
  | a :: t => by
    simp only [List.map_cons, List.find?_cons, hf a]
    cases h : a.id == i
    · simpa using find_map_update hf i t
    · rfl

theorem argmin_by_mem {key : Job → String} :
    ∀ {l : List Job} {m : Job}, argmin_by key l = some m → m ∈ l := by
  intro l
  induction l with
  | nil => intro m h; simp [argmin_by] at h
  | cons a t ih =>
    intro m h
    simp only [argmin_by] at h
    cases ht : argmin_by key t with
    | none => rw [ht] at h; simp at h; simp [h]
    | some m' =>
      rw [ht] at h
      by_cases hle : str_le (key a) (key m') = true
      · simp [hle] at h; simp [h]
      · simp [hle] at h
        exact List.mem_cons_of_mem a (ih (h ▸ ht))

theorem argmin_by_eq_none {key : Job → String} :
    ∀ {l : List Job}, argmin_by key l = none ↔ l = [] := by
  intro l
  cases l with
  | nil => simp [argmin_by]
  | cons a t =>
    simp only [argmin_by]
    cases argmin_by key t with
    | none => simp
    | some m => by_cases h : str_le (key a) (key m) = true <;> simp [h]

theorem argmin_by_min {key : Job → String} :
    ∀ {l : List Job} {m : Job}, argmin_by key l = some m →
      ∀ x ∈ l, str_le (key m) (key x) = true := by
  intro l
  induction l with
  | nil => intro m h; simp [argmin_by] at h
  | cons a t ih =>
    intro m h x hx
    simp only [argmin_by] at h
    cases ht : argmin_by key t with
    | none =>
      rw [ht] at h; simp at h
      have : t = [] := argmin_by_eq_none.mp ht
      subst this
      simp at hx
      subst hx; subst h
      exact str_le_refl _
    | some m' =>
      rw [ht] at h
      by_cases hle : str_le (key a) (key m') = true
      · simp [hle] at h
        subst h
        rcases List.mem_cons.mp hx with rfl | hxt
        · exact str_le_refl _
        · exact str_le_trans hle (ih ht x hxt)
      · simp [hle] at h
        subst h
        rcases List.mem_cons.mp hx with rfl | hxt
        · exact str_le_of_not_le hle
        · exact ih ht x hxt

theorem argmax_by_single (key : Job → String) (x : Job) : argmax_by key [x] = some x := rfl

theorem nodup_id_inj {l : List Job} (hnd : (l.map Job.id).Nodup) :
    ∀ {a b : Job}, a ∈ l → b ∈ l → a.id = b.id → a = b := by
  induction l with
  | nil => intro a b ha; simp at ha
  | cons x t ih =>
    intro a b ha hb hab
    simp only [List.map_cons, List.nodup_cons] at hnd
    rcases List.mem_cons.mp ha with rfl | hat <;> rcases List.mem_cons.mp hb with rfl | hbt
    · rfl
    · exact absurd (hab ▸ List.mem_map_of_mem Job.id hbt) hnd.1
    · exact absurd (hab ▸ List.mem_map_of_mem Job.id hat) hnd.1
    · exact ih hnd.2 hat hbt hab

theorem get_job_map_ite (st : Store) (i : String) (g : Job → Job)
    (hg : ∀ j, (g j).id = j.id) :
    get_job { st with jobs := st.jobs.map (fun j => if j.id == i then g j else j) } i =
      (get_job st i).map g := by
  unfold get_job
  rw [find_map_update (f := fun j => if j.id == i then g j else j)
    (fun j => by by_cases h : j.id == i <;> simp [h, hg j]) i]
  cases hfind : st.jobs.find? (fun j => j.id == i) with
  | none => rfl
  | some a =>
    have ha := List.find?_some hfind
    show some (if a.id == i then g a else a) = some (g a)
    rw [if_pos ha]

theorem get_job_update_job_state (st : Store) (i s_arg : String) (att : Option Nat)
    (r : Option String) (now : String) :
    get_job (update_job_state st i s_arg att r now) i =
      (get_job st i).map (fun j =>
        { j with
          state := s_arg,
          attempts := att.getD j.attempts,
          updated_at := now,
          locked_by := none,
          locked_at := none,
          retry_at := r }) := by
  unfold update_job_state
  rw [get_job_map_ite st i _ (fun j => by cases att <;> cases r <;> rfl)]
  cases get_job st i with
  | none => rfl
  | some j => cases att <;> cases r <;> rfl

theorem increment_attempts_snd (st : Store) (i now : String) :
    (increment_attempts st i now).2 =
      { st with jobs := st.jobs.map (fun j =>
          if j.id == i then { j with attempts := j.attempts + 1, updated_at := now } else j) } := by
  simp only [increment_attempts]
  split <;> rfl

theorem get_job_increment (st : Store) (i now : String) :
    get_job (increment_attempts st i now).2 i =
      (get_job st i).map (fun j => { j with attempts := j.attempts + 1, updated_at := now }) := by
  rw [increment_attempts_snd]
  exact get_job_map_ite st i _ (fun j => rfl)

theorem increment_attempts_fst (st : Store) (i now : String) (cur : Job)
    (hcur : get_job st i = some cur) :
    (increment_attempts st i now).1 = cur.attempts := by
  simp only [increment_attempts, hcur]

/-! ### Witness fixtures: a few concrete rows and stores -/

def ts1 : String := "2024-03-01T10:00:01.100000Z"

def ts2 : String := "2024-03-01T10:00:02.200000Z"

def ts3 : String := "2024-03-01T10:00:03.300000Z"

def ts_future : String := "2024-03-01T10:00:09Z"

def jobA : Job :=
  { id := "a"
    command := "echo a"
    state := "pending"
    attempts := 0
    max_retries := 3
    created_at := ts1
    updated_at := ts1
    locked_by := none
    locked_at := none
    retry_at := none }

def jobB : Job :=
  { id := "b"
    command := "echo b"
    state := "pending"
    attempts := 0
    max_retries := 3
    created_at := ts2
    updated_at := ts2
    locked_by := none
    locked_at := none
    retry_at := none }

def jobF : Job :=
  { id := "f"
    command := "echo f"
    state := "failed"
    attempts := 1
    max_retries := 3
    created_at := ts1
    updated_at := ts2
    locked_by := none
    locked_at := none
    retry_at := some ts1 }

def jobFut : Job := { jobF with retry_at := some ts_future }

def jobDead : Job := { jobF with state := "dead", attempts := 3, retry_at := none }

def storeAB : Store := { jobs := [jobA, jobB], config := init_store.config }

def storeFB : Store := { jobs := [jobF, jobB], config := init_store.config }

def storeFutB : Store := { jobs := [jobFut, jobB], config := init_store.config }

def storeDead : Store := { jobs := [jobDead], config := init_store.config }

/-! ### Claim C3 -/

/-- C3 counterexample: `update_job_state` does not require
state=processing.  In `storeAB` the job "a" is pending (not processing),
yet MarkCompleted (`update_job_state _ _ "completed"`) changes its state
to completed, refuting "for every job not in state=processing, the
operation does not change its state". -/
theorem update_job_state_changes_non_processing_job :
    (get_job storeAB "a").map Job.state = some "pending" ∧
    (get_job (update_job_state storeAB "a" "completed" none none ts3) "a").map Job.state =
      some "completed" := by decide

/-- C3 (amended): `update_job_state` applies its transition to the job
with the given id unconditionally, whatever the job's current state — it
sets the target state, clears the lock fields, sets retry_at as passed
(null when absent), sets attempts when passed, and stamps updated_at.
The state=processing requirement of MarkCompleted / MarkFailedForRetry /
MarkDead is a caller-side precondition that the store does not enforce. -/
theorem update_job_state_unconditional (st : Store) (i s_arg : String) (att : Option Nat)
    (r : Option String) (now : String) (cur : Job) (hcur : get_job st i = some cur) :
    get_job (update_job_state st i s_arg att r now) i =
      some { cur with
             state := s_arg,
             attempts := att.getD cur.attempts,
             updated_at := now,
             locked_by := none,
             locked_at := none,
             retry_at := r } := by
  rw [get_job_update_job_state, hcur]
  rfl

/-- Witness for the amended C3 theorem at a concrete pending job. -/
theorem update_job_state_unconditional_witness :
    get_job (update_job_state storeAB "a" "dead" none none ts3) "a" =
      some { jobA with
             state := "dead",
             attempts := (none : Option Nat).getD jobA.attempts,
             updated_at := ts3,
             locked_by := none,
             locked_at := none,
             retry_at := none } :=
  update_job_state_unconditional storeAB "a" "dead" none none ts3 jobA (by decide)

/-! ### Claim C4 -/

/-- C4 (code bug): for an existing job with attempts = n,
`increment_attempts` commits attempts = n+1 and a fresh updated_at
(every other field unchanged) but RETURNS the stale pre-increment value
n, not n+1: the read-back `self.get_job` runs on a second SQLite
connection before the incrementing transaction commits, so it sees only
the last committed row.  This contradicts the claim and the function's
own docstring ("Increment job attempts and return new count"). -/
theorem increment_attempts_stale_return (st : Store) (i now : String) (cur : Job)
    (hcur : get_job st i = some cur) :
    (increment_attempts st i now).1 = cur.attempts ∧
    get_job (increment_attempts st i now).2 i =
      some { cur with attempts := cur.attempts + 1, updated_at := now } := by
  refine ⟨increment_attempts_fst st i now cur hcur, ?_⟩
  rw [get_job_increment, hcur]
  rfl

/-- Witness for C4 at the failing input: job "f" has attempts = 1; the
call returns 1 while the committed row holds attempts = 2. -/
theorem increment_attempts_stale_return_witness :
    (increment_attempts storeFB "f" ts3).1 = jobF.attempts ∧
    get_job (increment_attempts storeFB "f" ts3).2 "f" =
      some { jobF with attempts := jobF.attempts + 1, updated_at := ts3 } :=
  increment_attempts_stale_return storeFB "f" ts3 jobF (by decide)

/-! ### Claim C8 -/

/-- C8: a job's max_retries is snapshotted from config at creation when
not given explicitly (`parse_int` of the `max_retries` config value, read
at creation time), and `set_config` rewrites only the config table — the
jobs table, hence every already-created job record, is left unchanged. -/
theorem config_snapshot (st st' : Store) (job : Job) (i c now k v : String)
    (hcreate : create_job st i c none now = some (job, st')) :
    parse_int ((get_config st "max_retries" (some "3")).getD "3") = some job.max_retries ∧
    (set_config st' k v).jobs = st'.jobs ∧
    get_job (set_config st' k v) i = get_job st' i := by
  refine ⟨?_, rfl, rfl⟩
  unfold create_job at hcreate
  cases hp : parse_int ((get_config st "max_retries" (some "3")).getD "3") with
  | none => rw [hp] at hcreate; simp at hcreate
  | some mr =>
    rw [hp] at hcreate
    by_cases hdup : st.jobs.any (fun j => j.id == i) = true
    · simp [hdup] at hcreate
    · simp only [Bool.not_eq_true] at hdup
      simp [hdup] at hcreate
      rw [← hcreate.1]

/-- Witness for C8: creating "c" on `storeAB` with the seeded config. -/
theorem config_snapshot_witness :
    parse_int ((get_config storeAB "max_retries" (some "3")).getD "3") =
      some (({ jobA with id := "c", command := "echo c", created_at := ts3, updated_at := ts3 } : Job)).max_retries ∧
    (set_config { storeAB with jobs := storeAB.jobs ++ [{ jobA with id := "c", command := "echo c", created_at := ts3, updated_at := ts3 }] } "max_retries" "9").jobs =
      ({ storeAB with jobs := storeAB.jobs ++ [{ jobA with id := "c", command := "echo c", created_at := ts3, updated_at := ts3 }] } : Store).jobs ∧
    get_job (set_config { storeAB with jobs := storeAB.jobs ++ [{ jobA with id := "c", command := "echo c", created_at := ts3, updated_at := ts3 }] } "max_retries" "9") "c" =
      get_job { storeAB with jobs := storeAB.jobs ++ [{ jobA with id := "c", command := "echo c", created_at := ts3, updated_at := ts3 }] } "c" :=
  config_snapshot storeAB _ _ "c" "echo c" ts3 "max_retries" "9" (by decide)

/-! ### Claim C10 -/

/-- C10: `lock_job` locks any pending-or-failed job by id without looking
at retry_at: for a failed job it returns true and the row becomes
processing and locked by the caller (retry_at cleared), even when
retry_at lies in the future. -/
theorem lock_job_ignores_retry_gating (st : Store) (j : Job) (w now : String)
    (hmem : j ∈ st.jobs) (hstate : j.state = "failed") :
    (lock_job st j.id w now).1 = true ∧
    lock_update j w now ∈ (lock_job st j.id w now).2.jobs ∧
    (lock_update j w now).state = "processing" ∧
    (lock_update j w now).locked_by = some w ∧
    (lock_update j w now).retry_at = none := by
  have hhit : (j.id == j.id && (j.state == "pending" || j.state == "failed")) = true := by
    simp [hstate]
  refine ⟨?_, ?_, rfl, rfl, rfl⟩
  · simp only [lock_job, decide_eq_true_eq, List.countP_pos_iff]
    exact ⟨j, hmem, hhit⟩
  · simp only [lock_job]
    have hmm := List.mem_map_of_mem
      (fun j' => if j'.id == j.id && (j'.state == "pending" || j'.state == "failed")
        then lock_update j' w now else j') hmem
    simp only [hhit, if_true] at hmm
    exact hmm

/-- Witness for C10: the failed job "f" with retry_at strictly in the
future (`str_le ts_future ts3 = false`) is still locked. -/
theorem lock_job_ignores_retry_gating_witness :
    (str_le ts_future ts3 = false ∧ jobFut.retry_at = some ts_future) ∧
    (lock_job storeFutB jobFut.id "w9" ts3).1 = true ∧
    lock_update jobFut "w9" ts3 ∈ (lock_job storeFutB jobFut.id "w9" ts3).2.jobs ∧
    (lock_update jobFut "w9" ts3).state = "processing" ∧
    (lock_update jobFut "w9" ts3).locked_by = some "w9" ∧
    (lock_update jobFut "w9" ts3).retry_at = none :=
  ⟨⟨by decide, by decide⟩,
    lock_job_ignores_retry_gating storeFutB jobFut "w9" ts3 (by decide) (by decide)⟩

/-! ### Claim C6 -/

/-- C6: `dlq retry` exits non-zero and leaves the store untouched when
the job is missing or not dead; on a dead job it succeeds (exit code 0)
and the next `get_job` shows state=pending, attempts=0, retry_at=null and
cleared lock fields. -/
theorem dlq_retry_spec (st : Store) (i now : String) :
    (get_job st i = none →
      (dlq_retry st i now).1.exit_code ≠ 0 ∧ (dlq_retry st i now).2 = st) ∧
    (∀ cur, get_job st i = some cur → cur.state ≠ "dead" →
      (dlq_retry st i now).1.exit_code ≠ 0 ∧ (dlq_retry st i now).2 = st) ∧
    (∀ cur, get_job st i = some cur → cur.state = "dead" →
      (dlq_retry st i now).1.exit_code = 0 ∧
      get_job (dlq_retry st i now).2 i =
        some { cur with
               state := "pending",
               attempts := 0,
               updated_at := now,
               locked_by := none,
               locked_at := none,
               retry_at := none }) := by
  refine ⟨?_, ?_, ?_⟩
  · intro h
    simp only [dlq_retry, h]
    refine ⟨?_, trivial⟩
    decide
  · intro cur hcur hstate
    have hbeq : (cur.state == "dead") = false := by
      simpa using hstate
    simp only [dlq_retry, hcur, hbeq, Bool.false_eq_true, if_false]
    refine ⟨?_, trivial⟩
    show (1 : Nat) ≠ 0
    decide
  · intro cur hcur hstate
    have hbeq : (cur.state == "dead") = true := by
      simpa using hstate
    simp only [dlq_retry, hcur, hbeq, if_true]
    refine ⟨rfl, ?_⟩
    rw [get_job_update_job_state, hcur]
    rfl

/-- Witness for C6 on the concrete dead job "f" of `storeDead`. -/
theorem dlq_retry_spec_witness :
    (dlq_retry storeDead "f" ts3).1.exit_code = 0 ∧
    get_job (dlq_retry storeDead "f" ts3).2 "f" =
      some { jobDead with
             state := "pending",
             attempts := 0,
             updated_at := ts3,
             locked_by := none,
             locked_at := none,
             retry_at := none } :=
  (dlq_retry_spec storeDead "f" ts3).2.2 jobDead (by decide) (by decide)

/-! ### Claim C2 -/

def jobM1 : Job := { jobA with id := "m", max_retries := 1 }

def storeM1 : Store := { jobs := [jobM1], config := init_store.config }

/-- C2 (code bug): after a failed attempt the worker's `new_attempts` is
the stale pre-increment count n returned by `increment_attempts` (its
read-back misses the uncommitted UPDATE), so although the database row
is committed with attempts = n+1 — the value the claim calls
new_attempts — the retry decision compares n against max_retries and the
backoff exponent is n, not n+1: the job goes dead only when
n ≥ max_retries, and otherwise is marked failed with
retry_at = render (now_epoch + backoff_base ^ n).  The claim is what the
code documents as its own intent (`increment_attempts`' docstring
"return new count", the worker's "attempt {new_attempts}/{max_retries}"
log, the test comment "backoff: 2^1=2s, 2^2=4s"), but not what it
does. -/
theorem process_job_record_stale (st : Store) (job cur : Job) (backoff_base : ℚ)
    (now : String) (now_epoch : ℚ) (render : ℚ → String)
    (hcur : get_job st job.id = some cur) :
    ((cur.attempts : Int) ≥ job.max_retries →
      get_job (process_job_record st job false backoff_base now now_epoch render) job.id =
        some { cur with
               state := "dead",
               attempts := cur.attempts + 1,
               updated_at := now,
               locked_by := none,
               locked_at := none,
               retry_at := none }) ∧
    ((cur.attempts : Int) < job.max_retries →
      get_job (process_job_record st job false backoff_base now now_epoch render) job.id =
        some { cur with
               state := "failed",
               attempts := cur.attempts + 1,
               updated_at := now,
               locked_by := none,
               locked_at := none,
               retry_at := some (render (now_epoch + backoff_base ^ cur.attempts)) }) := by
  have hfst : (increment_attempts st job.id now).1 = cur.attempts :=
    increment_attempts_fst st job.id now cur hcur
  have hget1 : get_job (increment_attempts st job.id now).2 job.id =
      some { cur with attempts := cur.attempts + 1, updated_at := now } := by
    rw [get_job_increment, hcur]; rfl
  constructor
  · intro hge
    simp only [process_job_record, Bool.false_eq_true, if_false, hfst]
    rw [if_pos hge, get_job_update_job_state, hget1]
    rfl
  · intro hlt
    simp only [process_job_record, Bool.false_eq_true, if_false, hfst]
    rw [if_neg (not_le.mpr hlt), get_job_update_job_state, hget1]
    rfl

/-- Witness for C2 at the failing input (attempts = 0, max_retries = 1):
the attempt is committed as attempts = 1 = max_retries, so the claim
requires state=dead, but the code records state=failed — with the
backoff exponent 0, since the decision saw the stale count 0. -/
theorem process_job_record_stale_witness :
    (jobM1.attempts : Int) < jobM1.max_retries ∧
    get_job (process_job_record storeM1 jobM1 false 2 ts3 1000 (fun _ => ts_future)) "m" =
      some { jobM1 with
             state := "failed",
             attempts := jobM1.attempts + 1,
             updated_at := ts3,
             locked_by := none,
             locked_at := none,
             retry_at := some ts_future } :=
  ⟨by decide,
    (process_job_record_stale storeM1 jobM1 jobM1 2 ts3 1000 (fun _ => ts_future)
      (by decide)).2 (by decide)⟩

/-! ### Claim C9 -/

/-- The per-row invariant of the spec's data model: processing iff both
lock fields set; retry_at set only on failed rows. -/
def JobInv (j : Job) : Prop :=
  (j.state = "processing" ↔ (j.locked_by.isSome ∧ j.locked_at.isSome)) ∧
  (j.retry_at.isSome → j.state = "failed")

/-- The invariant over the whole jobs table. -/
def StoreInv (st : Store) : Prop := ∀ j ∈ st.jobs, JobInv j

/-- Stores reachable from a fresh database through the public operations
exactly as the worker and the CLI invoke them: job creation, the two
leasing primitives, the four `update_job_state` shapes used by
`Worker.process_job` and `dlq retry`, and `increment_attempts`. -/
inductive Reachable : Store → Prop
  | init : Reachable init_store
  | create {st : Store} {job : Job} {st' : Store} (i c : String) (mr : Option Int)
      (now : String) : Reachable st → create_job st i c mr now = some (job, st') →
      Reachable st'
  | lease {st : Store} (w now : String) : Reachable st →
      Reachable (get_next_pending_job st w now).2
  | lock {st : Store} (i w now : String) : Reachable st →
      Reachable (lock_job st i w now).2
  | mark_completed {st : Store} (i now : String) : Reachable st →
      Reachable (update_job_state st i "completed" none none now)
  | mark_dead {st : Store} (i now : String) : Reachable st →
      Reachable (update_job_state st i "dead" none none now)
  | mark_failed {st : Store} (i r now : String) : Reachable st →
      Reachable (update_job_state st i "failed" none (some r) now)
  | reset_pending {st : Store} (i now : String) : Reachable st →
      Reachable (update_job_state st i "pending" (some 0) none now)
  | inc {st : Store} (i now : String) : Reachable st →
      Reachable (increment_attempts st i now).2

theorem job_inv_lock_update (j : Job) (w now : String) : JobInv (lock_update j w now) := by
  refine ⟨?_, ?_⟩ <;> simp [lock_update]

theorem store_inv_map {st : Store} (f : Job → Job) (h : StoreInv st)
    (hf : ∀ j, JobInv j → JobInv (f j)) :
    StoreInv { st with jobs := st.jobs.map f } := by
  intro j hj
  rcases List.mem_map.mp hj with ⟨a, ha, rfl⟩
  exact hf a (h a ha)

theorem store_inv_lock_map {st : Store} (h : StoreInv st) (cond : Job → Bool)
    (w now : String) :
    StoreInv { st with jobs := st.jobs.map (fun j =>
      if cond j then lock_update j w now else j) } := by
  refine store_inv_map _ h (fun j hj => ?_)
  by_cases hc : cond j = true
  · rw [if_pos hc]; exact job_inv_lock_update j w now
  · rw [if_neg hc]; exact hj

theorem store_inv_lease_pending {st : Store} (h : StoreInv st) (w now : String) :
    StoreInv (lease_pending st w now).2 := by
  simp only [lease_pending]
  split
  · split
    · exact store_inv_lock_map h _ w now
    · exact store_inv_lock_map h _ w now
  · exact h

theorem store_inv_lease {st : Store} (h : StoreInv st) (w now : String) :
    StoreInv (get_next_pending_job st w now).2 := by
  simp only [get_next_pending_job]
  split
  · split
    · exact store_inv_lock_map h _ w now
    · exact store_inv_lease_pending (store_inv_lock_map h _ w now) w now
  · exact store_inv_lease_pending h w now

theorem store_inv_update_worker_cli {st : Store} (h : StoreInv st) (i s_arg : String)
    (att : Option Nat) (r : Option String) (now : String)
    (hs : s_arg ≠ "processing") (hr : r.isSome → s_arg = "failed") :
    StoreInv (update_job_state st i s_arg att r now) := by
  unfold update_job_state
  refine store_inv_map _ h (fun j hj => ?_)
  by_cases hc : (j.id == i) = true
  · rw [if_pos hc]
    cases att <;> cases r <;>
      exact ⟨by simpa using hs, fun hsome => hr (by simpa using hsome)⟩
  · rw [if_neg hc]; exact hj

/-- C9: starting from a fresh store, after every committed operation that
the worker or the CLI can issue, every job row satisfies the data-model
invariant: state=processing iff locked_by and locked_at are both set, and
retry_at is set only on failed rows. -/
theorem reachable_store_inv {st : Store} (h : Reachable st) : StoreInv st := by
  induction h with
  | init => intro j hj; simp [init_store] at hj
  | create i c mr now hr hc ih =>
    unfold create_job at hc
    split at hc
    · exact absurd hc (by simp)
    · split at hc
      · exact absurd hc (by simp)
      · rename_i mr' hmr hdup
        simp only [Option.some.injEq, Prod.mk.injEq] at hc
        intro j hj
        rw [← hc.2] at hj
        simp only [List.mem_append, List.mem_singleton] at hj
        rcases hj with hj | rfl
        · exact ih j hj
        · exact ⟨by simp, by simp⟩
  | lease w now hr ih => exact store_inv_lease ih w now
  | lock i w now hr ih =>
    simp only [lock_job]
    exact store_inv_lock_map ih _ w now
  | mark_completed i now hr ih =>
    exact store_inv_update_worker_cli ih i "completed" none none now (by decide)
      (by intro h2; simp at h2)
  | mark_dead i now hr ih =>
    exact store_inv_update_worker_cli ih i "dead" none none now (by decide)
      (by intro h2; simp at h2)
  | mark_failed i r now hr ih =>
    exact store_inv_update_worker_cli ih i "failed" none (some r) now (by decide)
      (fun _ => rfl)
  | reset_pending i now hr ih =>
    exact store_inv_update_worker_cli ih i "pending" (some 0) none now (by decide)
      (by intro h2; simp at h2)
  | inc i now hr ih =>
    rw [increment_attempts_snd]
    refine store_inv_map _ ih (fun j hj => ?_)
    by_cases hc : (j.id == i) = true
    · rw [if_pos hc]
      exact ⟨by simpa using hj.1, by simpa using hj.2⟩
    · rw [if_neg hc]; exact hj

/-- Witness for C9: the invariant holds on the concrete store obtained by
creating a job, leasing it, and marking it failed with a retry time. -/
theorem reachable_store_inv_witness :
    StoreInv (update_job_state
      (get_next_pending_job
        ((create_job init_store "a" "echo a" none ts1).elim init_store Prod.snd)
        "w1" ts2).2
      "a" "failed" none (some ts3) ts3) :=
  reachable_store_inv
    (Reachable.mark_failed "a" ts3 ts3
      (Reachable.lease "w1" ts2
        (Reachable.create "a" "echo a" none ts1 Reachable.init rfl)))

/-! ### Leasing machinery shared by C1 and C5 -/

theorem argmax_by_mem {key : Job → String} :
    ∀ {l : List Job} {m : Job}, argmax_by key l = some m → m ∈ l := by
  intro l
  induction l with
  | nil => intro m h; simp [argmax_by] at h
  | cons a t ih =>
    intro m h
    simp only [argmax_by] at h
    cases ht : argmax_by key t with
    | none => rw [ht] at h; simp at h; simp [h]
    | some m' =>
      rw [ht] at h
      by_cases hle : str_le (key m') (key a) = true
      · simp [hle] at h; simp [h]
      · simp [hle] at h
        exact List.mem_cons_of_mem a (ih (h ▸ ht))

theorem reselect_some {st : Store} {w : String} {j : Job} (h : reselect st w = some j) :
    j ∈ st.jobs ∧ j.locked_by = some w ∧ j.state = "processing" := by
  unfold reselect at h
  have hm := argmax_by_mem h
  have hf := List.mem_filter.mp hm
  have hp := hf.2
  simp only [Bool.and_eq_true, beq_iff_eq] at hp
  exact ⟨hf.1, hp.1, hp.2⟩

/-- How one `get_next_pending_job` transaction can change a single row:
either it is untouched, or it was pending-or-failed and is now locked. -/
def LockEvo (w now : String) (a b : Job) : Prop :=
  b = a ∨ ((a.state = "pending" ∨ a.state = "failed") ∧ b = lock_update a w now)

theorem lock_evo_trans {w now : String} {a b c : Job}
    (h₁ : LockEvo w now a b) (h₂ : LockEvo w now b c) : LockEvo w now a c := by
  rcases h₁ with rfl | ⟨hs, rfl⟩
  · exact h₂
  · rcases h₂ with rfl | ⟨hs2, rfl⟩
    · exact Or.inr ⟨hs, rfl⟩
    · rcases hs2 with h | h <;> simp [lock_update] at h

theorem lock_map_shape (l : List Job) (sel_id target w now : String)
    (htarget : target = "pending" ∨ target = "failed") :
    ∀ b ∈ l.map (fun j =>
        if j.id == sel_id && j.state == target then lock_update j w now else j),
      ∃ a ∈ l, a.id = b.id ∧ LockEvo w now a b := by
  intro b hb
  rcases List.mem_map.mp hb with ⟨a, ha, rfl⟩
  by_cases hc : (a.id == sel_id && a.state == target) = true
  · rw [if_pos hc]
    refine ⟨a, ha, rfl, Or.inr ⟨?_, rfl⟩⟩
    have := (Bool.and_eq_true ..).mp hc
    rcases htarget with rfl | rfl
    · exact Or.inl (by simpa using this.2)
    · exact Or.inr (by simpa using this.2)
  · rw [if_neg hc]
    exact ⟨a, ha, rfl, Or.inl rfl⟩

theorem lock_map_ids (l : List Job) (cond : Job → Bool) (w now : String) :
    (l.map (fun j => if cond j then lock_update j w now else j)).map Job.id =
      l.map Job.id := by
  rw [List.map_map]
  apply List.map_congr_left
  intro j _
  by_cases h : cond j = true <;> simp [h, lock_update]

theorem lease_pending_ids (st : Store) (w now : String) :
    (lease_pending st w now).2.jobs.map Job.id = st.jobs.map Job.id := by
  simp only [lease_pending]
  split
  · split <;> exact lock_map_ids st.jobs _ w now
  · rfl

theorem lease_ids (st : Store) (w now : String) :
    (get_next_pending_job st w now).2.jobs.map Job.id = st.jobs.map Job.id := by
  simp only [get_next_pending_job]
  split
  · split
    · exact lock_map_ids st.jobs _ w now
    · rw [lease_pending_ids]
      exact lock_map_ids st.jobs _ w now
  · exact lease_pending_ids st w now

theorem lease_pending_shape (st : Store) (w now : String) :
    ∀ b ∈ (lease_pending st w now).2.jobs,
      ∃ a ∈ st.jobs, a.id = b.id ∧ LockEvo w now a b := by
  simp only [lease_pending]
  split
  · split <;> exact lock_map_shape st.jobs _ "pending" w now (Or.inl rfl)
  · intro b hb
    exact ⟨b, hb, rfl, Or.inl rfl⟩

theorem lease_shape (st : Store) (w now : String) :
    ∀ b ∈ (get_next_pending_job st w now).2.jobs,
      ∃ a ∈ st.jobs, a.id = b.id ∧ LockEvo w now a b := by
  simp only [get_next_pending_job]
  split
  · split
    · exact lock_map_shape st.jobs _ "failed" w now (Or.inr rfl)
    · intro b hb
      obtain ⟨m, hm, hmid, hevo⟩ := lease_pending_shape _ w now b hb
      obtain ⟨a, ha, haid, hevo'⟩ := lock_map_shape st.jobs _ "failed" w now (Or.inr rfl) m hm
      exact ⟨a, ha, haid.trans hmid, lock_evo_trans hevo' hevo⟩
  · exact lease_pending_shape st w now

theorem lease_pending_ret {st : Store} {w now : String} {j : Job} {st' : Store}
    (h : lease_pending st w now = (some j, st')) :
    j ∈ st'.jobs ∧ j.locked_by = some w ∧ j.state = "processing" := by
  simp only [lease_pending] at h
  split at h
  · split at h
    · rename_i row hrow
      simp only [Prod.mk.injEq, Option.some.injEq] at h
      obtain ⟨rfl, rfl⟩ := h
      exact reselect_some hrow
    · simp at h
  · simp at h

theorem lease_ret {st : Store} {w now : String} {j : Job} {st' : Store}
    (h : get_next_pending_job st w now = (some j, st')) :
    j ∈ st'.jobs ∧ j.locked_by = some w ∧ j.state = "processing" := by
  simp only [get_next_pending_job] at h
  split at h
  · split at h
    · rename_i row hrow
      simp only [Prod.mk.injEq, Option.some.injEq] at h
      obtain ⟨rfl, rfl⟩ := h
      exact reselect_some hrow
    · exact lease_pending_ret h
  · exact lease_pending_ret h

/-! ### Claim C1 -/

/-- C1: under the serialized-transaction model of the SQLite store, two
workers with distinct ids calling `get_next_pending_job` one after the
other (either interleaving of the two atomic transactions) never both
observe success for the same job id; and since ids are unique, at most
one locked_by value is associated with any id at any time. -/
theorem lease_next_no_double_lease (st : Store) (w1 w2 n1 n2 : String)
    (j1 j2 : Job) (st1 st2 : Store)
    (hnd : (st.jobs.map Job.id).Nodup) (hw : w1 ≠ w2)
    (h1 : get_next_pending_job st w1 n1 = (some j1, st1))
    (h2 : get_next_pending_job st1 w2 n2 = (some j2, st2)) :
    j1.id ≠ j2.id ∧
    (∀ a ∈ st2.jobs, ∀ b ∈ st2.jobs, a.id = b.id → a.locked_by = b.locked_by) := by
  have hst1 : st1 = (get_next_pending_job st w1 n1).2 := by rw [h1]
  have hst2 : st2 = (get_next_pending_job st1 w2 n2).2 := by rw [h2]
  have hnd1 : (st1.jobs.map Job.id).Nodup := by rw [hst1, lease_ids]; exact hnd
  have hnd2 : (st2.jobs.map Job.id).Nodup := by rw [hst2, lease_ids]; exact hnd1
  have hr1 := lease_ret h1
  have hr2 := lease_ret h2
  constructor
  · intro heq
    obtain ⟨a, ha, haid, hevo⟩ :=
      lease_shape st1 w2 n2 j2 (by rw [← hst2]; exact hr2.1)
    have haj1 : a = j1 := nodup_id_inj hnd1 ha hr1.1 (haid.trans heq.symm)
    subst haj1
    rcases hevo with rfl | ⟨hs, rfl⟩
    · have := hr1.2.1.symm.trans hr2.2.1
      simp only [Option.some.injEq] at this
      exact hw this
    · rcases hs with h | h <;> rw [hr1.2.2] at h <;> simp at h
  · intro a ha b hb hab
    rw [nodup_id_inj hnd2 ha hb hab]

/-- Witness for C1: on the two-pending-job store, worker w1 leases "a",
then worker w2 leases "b" — different ids. -/
theorem lease_next_no_double_lease_witness :
    (lock_update jobA "w1" ts3).id ≠ (lock_update jobB "w2" ts3).id ∧
    (∀ a ∈ (get_next_pending_job (get_next_pending_job storeAB "w1" ts3).2 "w2" ts3).2.jobs,
      ∀ b ∈ (get_next_pending_job (get_next_pending_job storeAB "w1" ts3).2 "w2" ts3).2.jobs,
        a.id = b.id → a.locked_by = b.locked_by) :=
  lease_next_no_double_lease storeAB "w1" "w2" ts3 ts3
    (lock_update jobA "w1" ts3) (lock_update jobB "w2" ts3)
    (get_next_pending_job storeAB "w1" ts3).2
    (get_next_pending_job (get_next_pending_job storeAB "w1" ts3).2 "w2" ts3).2
    (by decide) (by decide) (by decide) (by decide)

/-! ### Claim C5 -/

theorem filter_lock_map_of_no_hit (l : List Job) (sel_id target w now : String)
    (hno : ∀ j ∈ l, (j.id == sel_id) = false)
    (hclean : ∀ j ∈ l, ¬ (j.state = "processing" ∧ j.locked_by = some w)) :
    (l.map (fun j =>
        if j.id == sel_id && j.state == target then lock_update j w now else j)).filter
      (fun j => j.locked_by == some w && j.state == "processing") = [] := by
  induction l with
  | nil => rfl
  | cons h t ih =>
    simp only [List.map_cons, List.filter_cons]
    rw [hno h (List.mem_cons_self h t)]
    simp only [Bool.false_and, Bool.false_eq_true, if_false]
    have hcl : (h.locked_by == some w && h.state == "processing") = false := by
      cases hb : h.locked_by == some w <;> cases hs : h.state == "processing" <;> simp
      exact absurd ⟨by simpa using hs, by simpa using hb⟩ (hclean h (List.mem_cons_self h t))
    rw [hcl]
    simp only [Bool.false_eq_true, if_false]
    exact ih (fun j hj => hno j (List.mem_cons_of_mem h hj))
      (fun j hj => hclean j (List.mem_cons_of_mem h hj))

theorem reselect_after_lock (l : List Job) (sel : Job) (target w now : String)
    (hmem : sel ∈ l) (hsel : (sel.state == target) = true)
    (hnd : (l.map Job.id).Nodup)
    (hclean : ∀ j ∈ l, ¬ (j.state = "processing" ∧ j.locked_by = some w)) :
    (l.map (fun j =>
        if j.id == sel.id && j.state == target then lock_update j w now else j)).filter
      (fun j => j.locked_by == some w && j.state == "processing") =
      [lock_update sel w now] := by
  induction l with
  | nil => cases hmem
  | cons h t ih =>
    simp only [List.map_cons, List.nodup_cons] at hnd
    simp only [List.map_cons, List.filter_cons]
    rcases List.mem_cons.mp hmem with rfl | hmemt
    · rw [show (sel.id == sel.id && sel.state == target) = true by simp [hsel]]
      simp only [if_true]
      rw [show ((lock_update sel w now).locked_by == some w &&
          (lock_update sel w now).state == "processing") = true by simp [lock_update]]
      simp only [if_true]
      rw [filter_lock_map_of_no_hit t sel.id target w now
        (fun j hj => by
          cases hj' : j.id == sel.id with
          | false => rfl
          | true =>
            exact absurd ((beq_iff_eq ..).mp hj' ▸ List.mem_map_of_mem Job.id hj) hnd.1)
        (fun j hj => hclean j (List.mem_cons_of_mem sel hj))]
    · have hid : (h.id == sel.id) = false := by
        cases hj' : h.id == sel.id with
        | false => rfl
        | true =>
          exact absurd (((beq_iff_eq ..).mp hj').symm ▸ List.mem_map_of_mem Job.id hmemt)
            hnd.1
      rw [hid]
      simp only [Bool.false_and, Bool.false_eq_true, if_false]
      have hcl : (h.locked_by == some w && h.state == "processing") = false := by
        cases hb : h.locked_by == some w <;> cases hs : h.state == "processing" <;> simp
        exact absurd ⟨by simpa using hs, by simpa using hb⟩
          (hclean h (List.mem_cons_self h t))
      rw [hcl]
      simp only [Bool.false_eq_true, if_false]
      exact ih hmemt hnd.2 (fun j hj => hclean j (List.mem_cons_of_mem h hj))

theorem lease_pending_eq (st : Store) (w now : String)
    (hnd : (st.jobs.map Job.id).Nodup)
    (hclean : ∀ j ∈ st.jobs, ¬ (j.state = "processing" ∧ j.locked_by = some w)) :
    lease_pending st w now =
      match argmin_by (fun j => j.created_at)
          (st.jobs.filter (fun j => j.state == "pending")) with
      | some sel =>
        (some (lock_update sel w now),
         { st with jobs := st.jobs.map (fun j =>
             if j.id == sel.id && j.state == "pending" then lock_update j w now else j) })
      | none => (none, st) := by
  cases hmin : argmin_by (fun j => j.created_at)
      (st.jobs.filter (fun j => j.state == "pending")) with
  | none => simp only [lease_pending, hmin]
  | some sel =>
    have hsmem := List.mem_filter.mp (argmin_by_mem hmin)
    have hres : reselect
        { st with jobs := st.jobs.map (fun j =>
            if j.id == sel.id && j.state == "pending" then lock_update j w now else j) } w =
        some (lock_update sel w now) := by
      unfold reselect
      rw [reselect_after_lock st.jobs sel "pending" w now hsmem.1 hsmem.2 hnd hclean]
      rfl
    simp only [lease_pending, hmin, hres]

theorem lease_eq (st : Store) (w now : String)
    (hnd : (st.jobs.map Job.id).Nodup)
    (hclean : ∀ j ∈ st.jobs, ¬ (j.state = "processing" ∧ j.locked_by = some w)) :
    get_next_pending_job st w now =
      match argmin_by (fun j => j.updated_at) (st.jobs.filter (failed_ready now)) with
      | some sel =>
        (some (lock_update sel w now),
         { st with jobs := st.jobs.map (fun j =>
             if j.id == sel.id && j.state == "failed" then lock_update j w now else j) })
      | none =>
        match argmin_by (fun j => j.created_at)
            (st.jobs.filter (fun j => j.state == "pending")) with
        | some sel =>
          (some (lock_update sel w now),
           { st with jobs := st.jobs.map (fun j =>
               if j.id == sel.id && j.state == "pending" then lock_update j w now else j) })
        | none => (none, st) := by
  cases hmin : argmin_by (fun j => j.updated_at) (st.jobs.filter (failed_ready now)) with
  | none =>
    simp only [get_next_pending_job, hmin]
    exact lease_pending_eq st w now hnd hclean
  | some sel =>
    have hsmem := List.mem_filter.mp (argmin_by_mem hmin)
    have hstate : (sel.state == "failed") = true := by
      have := hsmem.2
      unfold failed_ready at this
      exact ((Bool.and_eq_true ..).mp this).1
    have hres : reselect
        { st with jobs := st.jobs.map (fun j =>
            if j.id == sel.id && j.state == "failed" then lock_update j w now else j) } w =
        some (lock_update sel w now) := by
      unfold reselect
      rw [reselect_after_lock st.jobs sel "failed" w now hsmem.1 hstate hnd hclean]
      rfl
    simp only [get_next_pending_job, hmin, hres]

/-- C5: under unique ids and a caller that holds no other lease (the
worker loop processes one job to completion before leasing again),
`get_next_pending_job` (a) only ever returns a job whose pre-transaction
row was retry-ready failed or pending, locked for the caller — the
returned value is exactly the post-update row and it is in the
post-update table; a retry-ready failed row is preferred over any pending
row, with the oldest updated_at among retry-ready failed rows,
respectively the oldest created_at among pending rows when no failed row
is ready; (b) a failed job whose retry_at is in the future is never
leased; (c) when no row is eligible it returns none and the store is
unchanged. -/
theorem lease_next_spec (st : Store) (w now : String)
    (hnd : (st.jobs.map Job.id).Nodup)
    (hclean : ∀ j ∈ st.jobs, ¬ (j.state = "processing" ∧ j.locked_by = some w)) :
    (∀ j st2, get_next_pending_job st w now = (some j, st2) →
       ∃ a, a ∈ st.jobs ∧ a.id = j.id ∧ j = lock_update a w now ∧ j ∈ st2.jobs ∧
         ((failed_ready now a = true ∧
            (∀ x ∈ st.jobs, failed_ready now x = true →
              str_le a.updated_at x.updated_at = true)) ∨
          (a.state = "pending" ∧ (∀ x ∈ st.jobs, failed_ready now x = false) ∧
            (∀ x ∈ st.jobs, x.state = "pending" →
              str_le a.created_at x.created_at = true)))) ∧
    (∀ j st2, get_next_pending_job st w now = (some j, st2) →
       ∀ x ∈ st.jobs, x.state = "failed" →
         (∃ t, x.retry_at = some t ∧ str_le t now = false) → j.id ≠ x.id) ∧
    ((∀ x ∈ st.jobs, failed_ready now x = false ∧ x.state ≠ "pending") →
       get_next_pending_job st w now = (none, st)) := by
  have hmain : ∀ j st2, get_next_pending_job st w now = (some j, st2) →
      ∃ a, a ∈ st.jobs ∧ a.id = j.id ∧ j = lock_update a w now ∧ j ∈ st2.jobs ∧
        ((failed_ready now a = true ∧
           (∀ x ∈ st.jobs, failed_ready now x = true →
             str_le a.updated_at x.updated_at = true)) ∨
         (a.state = "pending" ∧ (∀ x ∈ st.jobs, failed_ready now x = false) ∧
           (∀ x ∈ st.jobs, x.state = "pending" →
             str_le a.created_at x.created_at = true))) := by
    intro j st2 h
    rw [lease_eq st w now hnd hclean] at h
    cases hminF : argmin_by (fun j => j.updated_at) (st.jobs.filter (failed_ready now)) with
    | some sel =>
      rw [hminF] at h
      simp only [Prod.mk.injEq, Option.some.injEq] at h
      obtain ⟨rfl, rfl⟩ := h
      have hsmem := List.mem_filter.mp (argmin_by_mem hminF)
      refine ⟨sel, hsmem.1, rfl, rfl, ?_, Or.inl ⟨hsmem.2, ?_⟩⟩
      · have := List.mem_map_of_mem
          (fun j => if j.id == sel.id && j.state == "failed" then lock_update j w now else j)
          hsmem.1
        have hc : (sel.id == sel.id && sel.state == "failed") = true := by
          have hst : (sel.state == "failed") = true := by
            have h2 := hsmem.2
            unfold failed_ready at h2
            exact ((Bool.and_eq_true ..).mp h2).1
          simp [hst]
        simp only [hc, if_true] at this
        exact this
      · intro x hx hxr
        exact argmin_by_min hminF x (List.mem_filter.mpr ⟨hx, hxr⟩)
    | none =>
      rw [hminF] at h
      have hnoF : ∀ x ∈ st.jobs, failed_ready now x = false := by
        intro x hx
        cases hfx : failed_ready now x with
        | false => rfl
        | true =>
          have : st.jobs.filter (failed_ready now) = [] := argmin_by_eq_none.mp hminF
          have := List.mem_filter.mpr ⟨hx, hfx⟩
          simp_all
      cases hminP : argmin_by (fun j => j.created_at)
          (st.jobs.filter (fun j => j.state == "pending")) with
      | some sel =>
        rw [hminP] at h
        simp only [Prod.mk.injEq, Option.some.injEq] at h
        obtain ⟨rfl, rfl⟩ := h
        have hsmem := List.mem_filter.mp (argmin_by_mem hminP)
        have hst : sel.state = "pending" := by simpa using hsmem.2
        refine ⟨sel, hsmem.1, rfl, rfl, ?_, Or.inr ⟨hst, hnoF, ?_⟩⟩
        · have := List.mem_map_of_mem
            (fun j => if j.id == sel.id && j.state == "pending" then lock_update j w now else j)
            hsmem.1
          have hc : (sel.id == sel.id && sel.state == "pending") = true := by
            simp [hsmem.2]
          simp only [hc, if_true] at this
          exact this
        · intro x hx hxp
          exact argmin_by_min hminP x (List.mem_filter.mpr ⟨hx, by simpa using hxp⟩)
      | none =>
        rw [hminP] at h
        simp at h
  refine ⟨hmain, ?_, ?_⟩
  · intro j st2 h x hx hxf hxfut heq
    obtain ⟨a, ha, haid, _, _, hcase⟩ := hmain j st2 h
    have hax : a = x := nodup_id_inj hnd ha hx (haid.trans heq)
    subst hax
    obtain ⟨t, hrt, hfut⟩ := hxfut
    rcases hcase with ⟨hready, _⟩ | ⟨hpend, _, _⟩
    · simp [failed_ready, hrt, hfut] at hready
    · rw [hxf] at hpend; simp at hpend
  · intro hnone
    rw [lease_eq st w now hnd hclean]
    have h1 : st.jobs.filter (failed_ready now) = [] := by
      apply List.filter_eq_nil_iff.mpr
      intro x hx
      simp [(hnone x hx).1]
    have h2 : st.jobs.filter (fun j => j.state == "pending") = [] := by
      apply List.filter_eq_nil_iff.mpr
      intro x hx
      simpa using (hnone x hx).2
    rw [argmin_by_eq_none.mpr h1, argmin_by_eq_none.mpr h2]

/-- Witness for C5 on `storeFB` (a retry-ready failed job and a pending
job): hypotheses hold by computation. -/
theorem lease_next_spec_witness :
    (∀ j st2, get_next_pending_job storeFB "w" ts3 = (some j, st2) →
       ∃ a, a ∈ storeFB.jobs ∧ a.id = j.id ∧ j = lock_update a "w" ts3 ∧ j ∈ st2.jobs ∧
         ((failed_ready ts3 a = true ∧
            (∀ x ∈ storeFB.jobs, failed_ready ts3 x = true →
              str_le a.updated_at x.updated_at = true)) ∨
          (a.state = "pending" ∧ (∀ x ∈ storeFB.jobs, failed_ready ts3 x = false) ∧
            (∀ x ∈ storeFB.jobs, x.state = "pending" →
              str_le a.created_at x.created_at = true)))) ∧
    (∀ j st2, get_next_pending_job storeFB "w" ts3 = (some j, st2) →
       ∀ x ∈ storeFB.jobs, x.state = "failed" →
         (∃ t, x.retry_at = some t ∧ str_le t ts3 = false) → j.id ≠ x.id) ∧
    ((∀ x ∈ storeFB.jobs, failed_ready ts3 x = false ∧ x.state ≠ "pending") →
       get_next_pending_job storeFB "w" ts3 = (none, storeFB)) :=
  lease_next_spec storeFB "w" ts3 (by decide) (by decide)

/-! ### Claim C7 -/

/-- A naive `datetime` value as `datetime.utcnow()` produces. -/
structure DateTime where
  year : Nat
  month : Nat
  day : Nat
  hour : Nat
  minute : Nat
  second : Nat
  microsecond : Nat
deriving DecidableEq

/-- Zero-padded fixed-width decimal rendering, most significant digit
first (`%04d` / `%02d` / `%06d`). -/
def pad_chars : Nat → Nat → List Char
  | 0, _ => []
  | w + 1, n => pad_chars w (n / 10) ++ [Nat.digitChar (n % 10)]

/-- Python `datetime.isoformat()` on a naive datetime:
`YYYY-MM-DDTHH:MM:SS`, followed by `.ffffff` exactly when
`microsecond != 0`. -/
def isoformat (t : DateTime) : List Char :=
  pad_chars 4 t.year ++ ['-'] ++ pad_chars 2 t.month ++ ['-'] ++ pad_chars 2 t.day ++
    ['T'] ++ pad_chars 2 t.hour ++ [':'] ++ pad_chars 2 t.minute ++ [':'] ++
    pad_chars 2 t.second ++
    (if t.microsecond = 0 then [] else ['.'] ++ pad_chars 6 t.microsecond)

/-- `datetime.utcnow().isoformat() + "Z"`: the string written into
created_at, updated_at and locked_at by `storage.py`. -/
def persist_timestamp (t : DateTime) : String := (isoformat t ++ ['Z']).asString

/-- The worker's retry_at rendering (`worker.py`, `process_job`):
microseconds are zeroed by `retry_time.replace(microsecond=0)` before an
integral delay is added, so the rendered string has no fraction. -/
def retry_timestamp (t : DateTime) : String :=
  persist_timestamp { t with microsecond := 0 }

/-- Field bounds of every value `datetime.utcnow()` can return. -/
def DateTime.valid (t : DateTime) : Prop :=
  t.year < 10 ^ 4 ∧ t.month < 10 ^ 2 ∧ t.day < 10 ^ 2 ∧ t.hour < 10 ^ 2 ∧
  t.minute < 10 ^ 2 ∧ t.second < 10 ^ 2 ∧ t.microsecond < 10 ^ 6

/-- Chronological order of two datetimes: lexicographic significance of
the calendar fields down to microseconds. -/
def DateTime.chrono_lt (a b : DateTime) : Prop :=
  a.year < b.year ∨ (a.year = b.year ∧
    (a.month < b.month ∨ (a.month = b.month ∧
      (a.day < b.day ∨ (a.day = b.day ∧
        (a.hour < b.hour ∨ (a.hour = b.hour ∧
          (a.minute < b.minute ∨ (a.minute = b.minute ∧
            (a.second < b.second ∨ (a.second = b.second ∧
              a.microsecond < b.microsecond)))))))))))

instance (a b : DateTime) : Decidable (a.chrono_lt b) := by
  unfold DateTime.chrono_lt
  infer_instance

theorem pad_chars_length (w : Nat) : ∀ n, (pad_chars w n).length = w := by
  induction w with
  | zero => intro n; rfl
  | succ w ih => intro n; simp [pad_chars, ih]

theorem digit_char_cmp : ∀ a, a < 10 → ∀ b, b < 10 →
    ((Nat.digitChar a).toNat < (Nat.digitChar b).toNat ↔ a < b) ∧
    (Nat.digitChar a = Nat.digitChar b ↔ a = b) := by decide

theorem chars_lt_single (x y : Char) : chars_lt [x] [y] = true ↔ x.toNat < y.toNat := by
  simp only [chars_lt]
  rcases Nat.lt_trichotomy x.toNat y.toNat with h | h | h
  · simp [h]
  · simp [show ¬ x.toNat < y.toNat by omega, show ¬ y.toNat < x.toNat by omega]
  · simp [show ¬ x.toNat < y.toNat by omega, h]

theorem chars_lt_cons_same (c : Char) (l₁ l₂ : List Char) :
    chars_lt (c :: l₁) (c :: l₂) = chars_lt l₁ l₂ := by
  simp [chars_lt]

theorem chars_lt_append {l₁ r₁ r₂ : List Char} :
    ∀ {l₂ : List Char}, l₁.length = l₂.length →
      (chars_lt (l₁ ++ r₁) (l₂ ++ r₂) = true ↔
        (chars_lt l₁ l₂ = true ∨ (l₁ = l₂ ∧ chars_lt r₁ r₂ = true))) := by
  induction l₁ with
  | nil =>
    intro l₂ h
    cases l₂ with
    | nil => simp [chars_lt]
    | cons b t₂ => simp at h
  | cons a t₁ ih =>
    intro l₂ h
    cases l₂ with
    | nil => simp at h
    | cons b t₂ =>
      simp only [List.cons_append, chars_lt]
      rcases Nat.lt_trichotomy a.toNat b.toNat with hab | hab | hab
      · simp [hab]
      · have haeq : a = b := char_toNat_inj hab
        subst haeq
        simp only [Nat.lt_irrefl, if_false, List.append_eq]
        rw [ih (by simpa using h)]
        simp
      · have hne : a ≠ b := by
          intro he; rw [he] at hab; omega
        simp [show ¬ a.toNat < b.toNat by omega, hab, hne]

theorem append_chars_eq {l₁ l₂ r₁ r₂ : List Char} (h : l₁.length = l₂.length) :
    (l₁ ++ r₁ = l₂ ++ r₂) ↔ (l₁ = l₂ ∧ r₁ = r₂) :=
  ⟨fun he => List.append_inj he h, fun ⟨h1, h2⟩ => by rw [h1, h2]⟩

theorem pad_chars_cmp : ∀ (w : Nat) {n m : Nat}, n < 10 ^ w → m < 10 ^ w →
    ((chars_lt (pad_chars w n) (pad_chars w m) = true ↔ n < m) ∧
     (pad_chars w n = pad_chars w m ↔ n = m))
  | 0, n, m, hn, hm => by
    simp only [pow_zero, Nat.lt_one_iff] at hn hm
    subst hn; subst hm
    simp [pad_chars, chars_lt]
  | w + 1, n, m, hn, hm => by
    have hn' : n / 10 < 10 ^ w := by
      rw [Nat.div_lt_iff_lt_mul (by norm_num)]
      calc n < 10 ^ (w + 1) := hn
        _ = 10 ^ w * 10 := by ring
    have hm' : m / 10 < 10 ^ w := by
      rw [Nat.div_lt_iff_lt_mul (by norm_num)]
      calc m < 10 ^ (w + 1) := hm
        _ = 10 ^ w * 10 := by ring
    have ih := pad_chars_cmp w hn' hm'
    have hd := digit_char_cmp (n % 10) (Nat.mod_lt n (by norm_num)) (m % 10)
      (Nat.mod_lt m (by norm_num))
    constructor
    · rw [pad_chars, pad_chars,
        chars_lt_append (by rw [pad_chars_length, pad_chars_length]),
        ih.1, ih.2, chars_lt_single, hd.1]
      constructor
      · intro h
        rcases h with h | ⟨h1, h2⟩ <;> omega
      · intro h
        rcases Nat.lt_trichotomy (n / 10) (m / 10) with h' | h' | h'
        · exact Or.inl h'
        · exact Or.inr ⟨h', by omega⟩
        · omega
    · rw [pad_chars, pad_chars,
        append_chars_eq (by rw [pad_chars_length, pad_chars_length]), ih.2]
      constructor
      · intro ⟨h1, h2⟩
        have := (hd.2).mp (by simpa using h2)
        omega
      · intro h
        subst h
        simp

theorem frac_cmp {us₁ us₂ : Nat} (h₁ : us₁ < 10 ^ 6) (h₂ : us₂ < 10 ^ 6)
    (hm : us₁ = 0 ↔ us₂ = 0) :
    chars_lt ((if us₁ = 0 then [] else '.' :: pad_chars 6 us₁) ++ ['Z'])
      ((if us₂ = 0 then [] else '.' :: pad_chars 6 us₂) ++ ['Z']) = true ↔ us₁ < us₂ := by
  by_cases hz : us₁ = 0
  · have hz₂ : us₂ = 0 := hm.mp hz
    simp [hz, hz₂, chars_lt]
  · have hz₂ : us₂ ≠ 0 := fun h => hz (hm.mpr h)
    simp only [hz, hz₂, if_neg, if_false, List.cons_append]
    rw [chars_lt_cons_same,
      chars_lt_append (by rw [pad_chars_length, pad_chars_length]),
      (pad_chars_cmp 6 h₁ h₂).1, (pad_chars_cmp 6 h₁ h₂).2]
    simp [chars_lt]

/-- C7 counterexample: the persisted `created_at`-style timestamps are
`isoformat` of `utcnow`, which carries microsecond precision whenever the
clock's microsecond component is nonzero — not second precision (length
20 with the trailing Z); and across the two precisions that the code
actually persists (microsecond `created_at`/`updated_at`/`locked_at`
versus the worker's second-precision `retry_at`) lexicographic order
disagrees with chronological order: 10:00:05 (rendered "…05Z") sorts
lexicographically after 10:00:05.500000 (rendered "…05.500000Z"). -/
theorem timestamp_not_second_precision :
    (persist_timestamp ⟨2024, 3, 1, 10, 0, 5, 500000⟩).length ≠ 20 ∧
    (retry_timestamp ⟨2024, 3, 1, 10, 0, 5, 0⟩).length = 20 ∧
    DateTime.chrono_lt ⟨2024, 3, 1, 10, 0, 5, 0⟩ ⟨2024, 3, 1, 10, 0, 5, 500000⟩ ∧
    str_lt (persist_timestamp ⟨2024, 3, 1, 10, 0, 5, 500000⟩)
      (retry_timestamp ⟨2024, 3, 1, 10, 0, 5, 0⟩) = true := by decide

/-- C7 (amended): every persisted timestamp is ISO-8601 UTC with a
trailing "Z", but created_at/updated_at/locked_at carry microsecond
precision whenever the clock's microsecond component is nonzero (the
fraction is omitted exactly when it is zero), while the worker's retry_at
is second-precision; lexicographic order of the stored strings coincides
with chronological order exactly for timestamps of equal precision (both
carrying a fraction, or both without one). -/
theorem persist_lex_iff_chrono (t₁ t₂ : DateTime) (h₁ : t₁.valid) (h₂ : t₂.valid)
    (hm : t₁.microsecond = 0 ↔ t₂.microsecond = 0) :
    str_lt (persist_timestamp t₁) (persist_timestamp t₂) = true ↔ t₁.chrono_lt t₂ := by
  obtain ⟨hy₁, hmo₁, hd₁, hh₁, hmi₁, hs₁, hus₁⟩ := h₁
  obtain ⟨hy₂, hmo₂, hd₂, hh₂, hmi₂, hs₂, hus₂⟩ := h₂
  show chars_lt (isoformat t₁ ++ ['Z']) (isoformat t₂ ++ ['Z']) = true ↔ _
  unfold isoformat DateTime.chrono_lt
  simp only [List.append_assoc, List.cons_append, List.nil_append,
    List.singleton_append]
  rw [chars_lt_append (by rw [pad_chars_length, pad_chars_length]),
    (pad_chars_cmp 4 hy₁ hy₂).1, (pad_chars_cmp 4 hy₁ hy₂).2,
    chars_lt_cons_same,
    chars_lt_append (by rw [pad_chars_length, pad_chars_length]),
    (pad_chars_cmp 2 hmo₁ hmo₂).1, (pad_chars_cmp 2 hmo₁ hmo₂).2,
    chars_lt_cons_same,
    chars_lt_append (by rw [pad_chars_length, pad_chars_length]),
    (pad_chars_cmp 2 hd₁ hd₂).1, (pad_chars_cmp 2 hd₁ hd₂).2,
    chars_lt_cons_same,
    chars_lt_append (by rw [pad_chars_length, pad_chars_length]),
    (pad_chars_cmp 2 hh₁ hh₂).1, (pad_chars_cmp 2 hh₁ hh₂).2,
    chars_lt_cons_same,
    chars_lt_append (by rw [pad_chars_length, pad_chars_length]),
    (pad_chars_cmp 2 hmi₁ hmi₂).1, (pad_chars_cmp 2 hmi₁ hmi₂).2,
    chars_lt_cons_same,
    chars_lt_append (by rw [pad_chars_length, pad_chars_length]),
    (pad_chars_cmp 2 hs₁ hs₂).1, (pad_chars_cmp 2 hs₁ hs₂).2,
    frac_cmp hus₁ hus₂ hm]

/-- Witness for the amended C7 theorem at two concrete
microsecond-precision datetimes. -/
theorem persist_lex_iff_chrono_witness :
    str_lt (persist_timestamp ⟨2024, 3, 1, 10, 0, 5, 100000⟩)
        (persist_timestamp ⟨2024, 3, 1, 10, 0, 6, 50⟩) = true ↔
      DateTime.chrono_lt ⟨2024, 3, 1, 10, 0, 5, 100000⟩ ⟨2024, 3, 1, 10, 0, 6, 50⟩ :=
  persist_lex_iff_chrono ⟨2024, 3, 1, 10, 0, 5, 100000⟩ ⟨2024, 3, 1, 10, 0, 6, 50⟩
    (by unfold DateTime.valid; decide) (by unfold DateTime.valid; decide) (by decide)

end QueueCtl
